import Mathlib

/-!
Verification of the metadata CSV checker (`checker.py`).

The program validates rows of file metadata against four fixed rules and
writes the rows back with one appended `issues` column.  We embed the data
model (a row is a finite map from column names to string values, realised as
an association list in header order), the four rule checks, the per-row
validation pipeline and the report writer, and prove the specified
properties about them.

Strings are handled at the `List Char` level; character classes (digits,
whitespace) are modelled over ASCII, matching the data the program is
written for.
-/

namespace Checker

/-- A row of the CSV table: column name to string value, in column order.
Models the `dict` produced by `csv.DictReader` (keys are unique there, but
the type does not force it; theorems assume it where needed). -/
abbrev Row := List (String × String)

/-- Dictionary lookup: first binding of the key, `none` when absent.
Models Python `row.get(k)`. -/
def Row.get : Row → String → Option String
  | [], _ => none
  | (k, v) :: t, key => if k = key then some v else Row.get t key

/-- Dictionary update: replace the value at the first binding of `k`, or
append a new binding when `k` is absent.  Models `d[k] = v` on a `dict`. -/
def setKey : Row → String → String → Row
  | [], k, v => [(k, v)]
  | (k₀, v₀) :: t, k, v =>
      if k₀ = k then (k₀, v) :: t else (k₀, v₀) :: setKey t k v

/-- ASCII whitespace, the characters `str.strip()` removes on ASCII data. -/
def isSpace (c : Char) : Bool :=
  c.toNat = 32 || c.toNat = 9 || c.toNat = 10 || c.toNat = 13 ||
  c.toNat = 11 || c.toNat = 12

/-- Strip leading and trailing whitespace from a character list. -/
def stripL (l : List Char) : List Char :=
  ((l.dropWhile isSpace).reverse.dropWhile isSpace).reverse

/-- Model of Python `s.strip()` (ASCII whitespace). -/
def stripPy (s : String) : String := ⟨stripL s.data⟩

/-- The trimmed value of a field: models `(row.get(field) or "").strip()`.
Python `or` turns both an absent key (`None`) and the empty string into
`""`, which `Option.getD ""` reproduces. -/
def fieldVal (row : Row) (f : String) : String :=
  stripPy ((Row.get row f).getD "")

/-- `REQUIRED_FIELDS` from the source. -/
def REQUIRED_FIELDS : List String :=
  ["filename", "title", "creator", "date", "license", "format"]

/-- `ALLOWED_LICENSES` from the source. -/
def ALLOWED_LICENSES : List String :=
  ["CC0-1.0", "CC-BY-4.0", "MIT", "GPL-3.0"]

/-- `check_required_fields`: one `Missing <field>` issue per required field
whose trimmed value is empty, accumulated in list order. -/
def check_required_fields (row : Row) : List String :=
  REQUIRED_FIELDS.foldl
    (fun issues field =>
      if fieldVal row field = "" then issues ++ ["Missing " ++ field]
      else issues)
    []

/-- ASCII decimal digit: models `\d` of the `re` module and `str.isdigit`
on ASCII data. -/
def isDig (c : Char) : Bool := 48 ≤ c.toNat && c.toNat ≤ 57

/-- Model of Python `str.isdigit` on ASCII data: non-empty and all digits. -/
def isdigitPy (l : List Char) : Bool := !l.isEmpty && l.all isDig

/-- Numeric value of a digit string (most significant first), as `int()`
computes it for ASCII digits. -/
def digitsVal (l : List Char) : Nat :=
  l.foldl (fun n c => 10 * n + (c.toNat - 48)) 0

def allDigits (l : List Char) : Bool := l.all isDig

/-- Split a character list on a separator character, keeping empty groups:
models Python `s.split(sep)` with an explicit separator
(`"a__b".split("_") = ["a","","b"]`, `"".split("_") = [""]`). -/
def splitOnChar (sep : Char) : List Char → List (List Char)
  | [] => [[]]
  | c :: t =>
      let r := splitOnChar sep t
      if c = sep then [] :: r else (c :: r.headD []) :: r.tail

/-- Join groups with a separator: left inverse of `splitOnChar`. -/
def joinGroups (sep : Char) : List (List Char) → List Char
  | [] => []
  | [g] => g
  | g :: gs => g ++ sep :: joinGroups sep gs

/-- Model of CPython `_strptime`'s regex fragment for `%m`,
`1[0-2]|0[1-9]|[1-9]`: the month strings it can consume in full. -/
def monthOkL : List Char → Bool
  | [a] => 49 ≤ a.toNat && a.toNat ≤ 57
  | [a, b] => (a.toNat == 49 && (48 ≤ b.toNat && b.toNat ≤ 50)) ||
              (a.toNat == 48 && (49 ≤ b.toNat && b.toNat ≤ 57))
  | _ => false

/-- Model of CPython `_strptime`'s regex fragment for `%d`,
`3[01]|[12]\d|0[1-9]|[1-9]`: the day strings it can consume in full. -/
def dayOkL : List Char → Bool
  | [a] => 49 ≤ a.toNat && a.toNat ≤ 57
  | [a, b] => (a.toNat == 51 && (b.toNat == 48 || b.toNat == 49)) ||
              ((a.toNat == 49 || a.toNat == 50) && isDig b) ||
              (a.toNat == 48 && (49 ≤ b.toNat && b.toNat ≤ 57))
  | _ => false

/-- Model of `%Y` plus `datetime`'s year range: exactly four digits
(regex `\d\d\d\d`) with value at least `MINYEAR = 1`. -/
def yearOkL (y : List Char) : Bool :=
  y.length == 4 && allDigits y && digitsVal y != 0

/-- Proleptic Gregorian leap year, as `datetime` uses. -/
def isLeap (y : Nat) : Bool := (y % 4 == 0 && y % 100 != 0) || y % 400 == 0

/-- Days in a month of the proleptic Gregorian calendar. -/
def daysInMonth (y m : Nat) : Nat :=
  if m = 2 then (if isLeap y then 29 else 28)
  else if m = 4 ∨ m = 6 ∨ m = 9 ∨ m = 11 then 30
  else 31

/-- Model of `datetime.strptime(s, "%Y-%m-%d")` succeeding (ASCII data).
CPython compiles the format to the regex
`(?P<Y>\d\d\d\d)\-(?P<m>1[0-2]|0[1-9]|[1-9])\-(?P<d>3[01]|[12]\d|0[1-9]|[1-9])`,
requires the match to consume the whole string, and then builds a
`datetime`, which checks `1 ≤ year` and that the day exists in that month
(Gregorian, with leap years).  Because the field patterns consume only
digits and the separators are literal dashes, a string is accepted exactly
when splitting it on `-` yields three such components. -/
def strptimeYmd (s : String) : Bool :=
  match splitOnChar '-' s.data with
  | [y, m, d] =>
      yearOkL y && monthOkL m && dayOkL d &&
      decide (digitsVal d ≤ daysInMonth (digitsVal y) (digitsVal m))
  | _ => false

/-- `check_date`: blank dates are skipped, otherwise one issue when
`strptime` rejects the value. -/
def check_date (row : Row) : List String :=
  if fieldVal row "date" = "" then []
  else if strptimeYmd (fieldVal row "date") then []
  else ["Invalid date format (expected YYYY-MM-DD)"]

/-- `check_license`: blank licenses are skipped, otherwise one issue when
the trimmed value is not in the allow-list. -/
def check_license (row : Row) : List String :=
  if fieldVal row "license" = "" then []
  else if fieldVal row "license" ∉ ALLOWED_LICENSES then
    ["License not allowed: " ++ fieldVal row "license"]
  else []

/-- Model of `filename.rsplit(".", 1)` for a list that contains a dot:
the part before the last dot and the part after it. -/
def rsplitDot (l : List Char) : List Char × List Char :=
  (((l.reverse.dropWhile fun c => c ≠ '.').drop 1).reverse,
   (l.reverse.takeWhile fun c => c ≠ '.').reverse)

/-- The underscore segments of a filename's name part (before the last
dot): `name_part.split("_")` in the source. -/
def fnParts (l : List Char) : List (List Char) :=
  splitOnChar '_' (rsplitDot l).1

/-- The version-segment test of the source:
`version_part.startswith("v") and version_part[1:].isdigit()`. -/
def versionOk : List Char → Bool
  | [] => false
  | c :: rest => c == 'v' && isdigitPy rest

/-- `check_filename`: blank filenames are skipped; a filename without a
dot gets the no-extension issue and stops; a name part with fewer than 4
underscore segments gets the structure issue and stops; otherwise the
8-digit-date and version tests run independently and may both fire. -/
def check_filename (row : Row) : List String :=
  if fieldVal row "filename" = "" then []
  else
    let filename := (fieldVal row "filename").data
    if '.' ∉ filename then ["Filename has no file extension"]
    else
      let parts := fnParts filename
      if parts.length < 4 then ["Filename does not follow expected structure"]
      else
        (if (parts.headD []).length ≠ 8 ∨ isdigitPy (parts.headD []) = false
         then ["Filename date must be YYYYMMDD"] else []) ++
        (if versionOk (parts.getLastD []) = false
         then ["Filename version must look like v01"] else [])

/-- One row's issues in `main`: the four checks concatenated in the fixed
order required-fields, date, license, filename. -/
def validate_row (row : Row) : List String :=
  check_required_fields row ++ check_date row ++ check_license row ++
  check_filename row

/-- Model of `"; ".join(issues)`. -/
def joinIssues : List String → String
  | [] => ""
  | [s] => s
  | s :: t => s ++ "; " ++ joinIssues t

/-- `write_report`: derives the header from the first row's keys plus
`issues` (raising `IndexError`, modelled as `none`, on an empty row list),
then writes one output row per input row; each output row is the row
`dict` with its `issues` entry set to the joined issue string, serialised
in header order (`csv.DictWriter` looks each field name up in the dict). -/
def write_report (rows : List Row) (all_issues : List (List String)) :
    Option (List String × List (List String)) :=
  match rows with
  | [] => none
  | r₀ :: _ =>
      let fieldnames := r₀.map Prod.fst ++ ["issues"]
      some (fieldnames,
        (rows.zip all_issues).map fun ri =>
          fieldnames.map fun fn =>
            (Row.get (setKey ri.1 "issues" (joinIssues ri.2)) fn).getD "")

/-- The whole pipeline on loaded rows: validate every row, then write. -/
def report (rows : List Row) : Option (List String × List (List String)) :=
  write_report rows (rows.map validate_row)

/-- Header of the produced report (empty when the run fails). -/
def reportHeader (rows : List Row) : List String :=
  ((report rows).map Prod.fst).getD []

/-- Data rows of the produced report (empty when the run fails). -/
def reportRows (rows : List Row) : List (List String) :=
  ((report rows).map Prod.snd).getD []

/-- Spec-side predicate, following the spec's words for the date rule:
the value is a calendar date in the exact zero-padded, dash-separated
format `YYYY-MM-DD` (four-digit year of a positive year, two-digit month
`01`–`12`, two-digit day valid for that month in the Gregorian
calendar). -/
def isZeroPaddedCalendarDate (s : String) : Prop :=
  ∃ y m d : List Char,
    s.data = y ++ '-' :: (m ++ '-' :: d) ∧
    y.length = 4 ∧ m.length = 2 ∧ d.length = 2 ∧
    allDigits y = true ∧ allDigits m = true ∧ allDigits d = true ∧
    1 ≤ digitsVal y ∧ 1 ≤ digitsVal m ∧ digitsVal m ≤ 12 ∧
    1 ≤ digitsVal d ∧ digitsVal d ≤ daysInMonth (digitsVal y) (digitsVal m)

/-- Spec-side predicate for the amended date rule: a dash-separated
year-month-day calendar date whose year is exactly four digits (denoting a
positive year) and whose month and day are one or two digits each —
zero-padding optional — with the month in `1`–`12` and the day valid for
that month in that year (Gregorian calendar). -/
def dateAcceptedSpec (s : String) : Prop :=
  ∃ y m d : List Char,
    s.data = y ++ '-' :: (m ++ '-' :: d) ∧
    y.length = 4 ∧ allDigits y = true ∧ 1 ≤ digitsVal y ∧
    allDigits m = true ∧ 1 ≤ m.length ∧ m.length ≤ 2 ∧
    1 ≤ digitsVal m ∧ digitsVal m ≤ 12 ∧
    allDigits d = true ∧ 1 ≤ d.length ∧ d.length ≤ 2 ∧
    1 ≤ digitsVal d ∧ digitsVal d ≤ daysInMonth (digitsVal y) (digitsVal m)

/-- Spec-side form of the required-fields rule: the `Missing <field>`
issues for exactly the required fields whose trimmed value is empty, in
list order. -/
def missingIssues (row : Row) : List String :=
  (REQUIRED_FIELDS.filter fun f => decide (fieldVal row f = "")).map
    fun f => "Missing " ++ f

/-- Spec-side predicate: a filename that conforms to the naming
convention — it has an extension, its name part has at least 4 underscore
segments, the first segment is exactly 8 digits, and the last segment is
`v` followed by one or more digits. -/
def filenameConformant (s : String) : Bool :=
  decide ('.' ∈ s.data) &&
  decide (4 ≤ (fnParts s.data).length) &&
  ((fnParts s.data).headD []).length == 8 &&
  isdigitPy ((fnParts s.data).headD []) &&
  versionOk ((fnParts s.data).getLastD [])

/-- Restriction of a row to the bindings whose key is in `ks`: the
"original input columns" view of a report row. -/
def restrictKeys : Row → List String → Row
  | [], _ => []
  | p :: t, ks => if p.1 ∈ ks then p :: restrictKeys t ks else restrictKeys t ks

/-! ### Lemmas about `splitOnChar` -/

theorem splitOnChar_ne_nil (sep : Char) (l : List Char) :
    splitOnChar sep l ≠ [] := by
  cases l with
  | nil => simp [splitOnChar]
  | cons c t =>
      simp only [splitOnChar]
      split <;> simp

theorem splitOnChar_no_sep (sep : Char) (l : List Char) (h : sep ∉ l) :
    splitOnChar sep l = [l] := by
  induction l with
  | nil => rfl
  | cons c t ih =>
      have hc : ¬ (c = sep) := fun hec => h (hec ▸ List.mem_cons_self c t)
      have ht : sep ∉ t := fun hmt => h (List.mem_cons_of_mem c hmt)
      simp [splitOnChar, hc, ih ht]

theorem splitOnChar_append (sep : Char) (l₁ l₂ : List Char) (h : sep ∉ l₁) :
    splitOnChar sep (l₁ ++ sep :: l₂) = l₁ :: splitOnChar sep l₂ := by
  induction l₁ with
  | nil => simp [splitOnChar]
  | cons c t ih =>
      have hc : ¬ (c = sep) := fun hec => h (hec ▸ List.mem_cons_self c t)
      have ht : sep ∉ t := fun hmt => h (List.mem_cons_of_mem c hmt)
      simp [splitOnChar, hc, ih ht]

theorem joinGroups_splitOnChar (sep : Char) (l : List Char) :
    joinGroups sep (splitOnChar sep l) = l := by
  induction l with
  | nil => rfl
  | cons c t ih =>
      obtain ⟨g, gs, hgs⟩ : ∃ g gs, splitOnChar sep t = g :: gs := by
        cases h : splitOnChar sep t with
        | nil => exact absurd h (splitOnChar_ne_nil sep t)
        | cons g gs => exact ⟨g, gs, rfl⟩
      by_cases hc : c = sep
      · have h1 : splitOnChar sep (c :: t) = [] :: g :: gs := by
          simp [splitOnChar, hc, hgs]
        rw [h1]
        have h2 : joinGroups sep ([] :: g :: gs) = sep :: joinGroups sep (g :: gs) := rfl
        rw [h2, ← hgs, ih, hc]
      · have h1 : splitOnChar sep (c :: t) = (c :: g) :: gs := by
          simp [splitOnChar, hc, hgs]
        rw [h1]
        cases gs with
        | nil =>
            have h2 : joinGroups sep [c :: g] = c :: g := rfl
            have h3 : joinGroups sep [g] = g := rfl
            rw [h2]
            have := ih
            rw [hgs, h3] at this
            rw [this]
        | cons g₂ gs₂ =>
            have h2 : joinGroups sep ((c :: g) :: g₂ :: gs₂) =
                c :: (g ++ sep :: joinGroups sep (g₂ :: gs₂)) := rfl
            have h3 : joinGroups sep (g :: g₂ :: gs₂) =
                g ++ sep :: joinGroups sep (g₂ :: gs₂) := rfl
            rw [h2, ← h3, ← hgs, ih]

theorem not_mem_of_allDigits (l : List Char) (h : allDigits l = true) :
    '-' ∉ l := by
  intro hm
  have hd := List.all_eq_true.mp h _ hm
  simp [isDig] at hd

/-! ### The strptime model matches the declarative date predicate -/

theorem daysInMonth_le (y m : Nat) : daysInMonth y m ≤ 31 := by
  unfold daysInMonth
  split
  · split <;> omega
  · split <;> omega

theorem yearOkL_iff (y : List Char) :
    yearOkL y = true ↔
      (y.length = 4 ∧ allDigits y = true ∧ 1 ≤ digitsVal y) := by
  simp [yearOkL, Nat.one_le_iff_ne_zero, and_assoc]

theorem monthOkL_iff (m : List Char) :
    monthOkL m = true ↔
      (allDigits m = true ∧ 1 ≤ m.length ∧ m.length ≤ 2 ∧
       1 ≤ digitsVal m ∧ digitsVal m ≤ 12) := by
  match m with
  | [] => simp [monthOkL, allDigits]
  | [a] =>
      simp [monthOkL, allDigits, isDig, digitsVal]
      omega
  | [a, b] =>
      simp [monthOkL, allDigits, isDig, digitsVal]
      omega
  | a :: b :: c :: t =>
      simp only [monthOkL, Bool.false_eq_true, false_iff, not_and]
      intro _ _ h
      simp at h

theorem dayOkL_iff (d : List Char) :
    dayOkL d = true ↔
      (allDigits d = true ∧ 1 ≤ d.length ∧ d.length ≤ 2 ∧
       1 ≤ digitsVal d ∧ digitsVal d ≤ 31) := by
  match d with
  | [] => simp [dayOkL, allDigits]
  | [a] =>
      simp [dayOkL, allDigits, isDig, digitsVal]
      omega
  | [a, b] =>
      simp [dayOkL, allDigits, isDig, digitsVal]
      omega
  | a :: b :: c :: t =>
      simp only [dayOkL, Bool.false_eq_true, false_iff, not_and]
      intro _ _ h
      simp at h

theorem strptimeYmd_iff (s : String) :
    strptimeYmd s = true ↔ dateAcceptedSpec s := by
  constructor
  · intro h
    unfold strptimeYmd at h
    cases hsp : splitOnChar '-' s.data with
    | nil => rw [hsp] at h; simp at h
    | cons y r₁ =>
        cases r₁ with
        | nil => rw [hsp] at h; simp at h
        | cons m r₂ =>
            cases r₂ with
            | nil => rw [hsp] at h; simp at h
            | cons d r₃ =>
                cases r₃ with
                | cons e r₄ => rw [hsp] at h; simp at h
                | nil =>
                    rw [hsp] at h
                    simp only [Bool.and_eq_true, decide_eq_true_eq] at h
                    obtain ⟨⟨⟨hy, hm⟩, hd⟩, hdm⟩ := h
                    rw [yearOkL_iff] at hy
                    rw [monthOkL_iff] at hm
                    rw [dayOkL_iff] at hd
                    have hs : s.data = y ++ '-' :: (m ++ '-' :: d) := by
                      have hj := joinGroups_splitOnChar '-' s.data
                      rw [hsp] at hj
                      have : joinGroups '-' [y, m, d] =
                          y ++ '-' :: (m ++ '-' :: d) := rfl
                      rw [this] at hj
                      exact hj.symm
                    exact ⟨y, m, d, hs, hy.1, hy.2.1, hy.2.2, hm.1, hm.2.1,
                      hm.2.2.1, hm.2.2.2.1, hm.2.2.2.2, hd.1, hd.2.1,
                      hd.2.2.1, hd.2.2.2.1, hdm⟩
  · rintro ⟨y, m, d, hs, hylen, hydig, hyval, hmdig, hml1, hml2, hmv1,
      hmv12, hddig, hdl1, hdl2, hdv1, hdvm⟩
    have hy : '-' ∉ y := not_mem_of_allDigits y hydig
    have hm : '-' ∉ m := not_mem_of_allDigits m hmdig
    have hd : '-' ∉ d := not_mem_of_allDigits d hddig
    have hsplit : splitOnChar '-' s.data = [y, m, d] := by
      rw [hs, splitOnChar_append '-' y _ hy, splitOnChar_append '-' m d hm,
        splitOnChar_no_sep '-' d hd]
    unfold strptimeYmd
    rw [hsplit]
    simp only [Bool.and_eq_true, decide_eq_true_eq]
    refine ⟨⟨⟨?_, ?_⟩, ?_⟩, hdvm⟩
    · rw [yearOkL_iff]; exact ⟨hylen, hydig, hyval⟩
    · rw [monthOkL_iff]; exact ⟨hmdig, hml1, hml2, hmv1, hmv12⟩
    · rw [dayOkL_iff]
      exact ⟨hddig, hdl1, hdl2, hdv1,
        le_trans hdvm (daysInMonth_le (digitsVal y) (digitsVal m))⟩

/-! ### Lemmas about rows as association lists -/

theorem get_eq_none_iff (r : Row) (k : String) :
    Row.get r k = none ↔ k ∉ r.map Prod.fst := by
  induction r with
  | nil => simp [Row.get]
  | cons p t ih =>
      obtain ⟨k₀, v₀⟩ := p
      by_cases hk : k₀ = k
      · simp [Row.get, hk]
      · simp [Row.get, hk, ih, Ne.symm hk]

theorem get_some_of_mem (r : Row) (k : String) (h : k ∈ r.map Prod.fst) :
    ∃ v, Row.get r k = some v := by
  cases hg : Row.get r k with
  | none => exact absurd h ((get_eq_none_iff r k).mp hg)
  | some v => exact ⟨v, rfl⟩

theorem get_append_of_none (r₁ r₂ : Row) (k : String)
    (h : Row.get r₁ k = none) :
    Row.get (r₁ ++ r₂) k = Row.get r₂ k := by
  induction r₁ with
  | nil => rfl
  | cons p t ih =>
      obtain ⟨k₀, v₀⟩ := p
      by_cases hk : k₀ = k
      · simp [Row.get, hk] at h
      · simp only [List.cons_append]
        simp only [Row.get, hk, if_false] at h ⊢
        exact ih h

theorem get_append_of_some (r₁ r₂ : Row) (k : String) (v : String)
    (h : Row.get r₁ k = some v) :
    Row.get (r₁ ++ r₂) k = some v := by
  induction r₁ with
  | nil => simp [Row.get] at h
  | cons p t ih =>
      obtain ⟨k₀, v₀⟩ := p
      by_cases hk : k₀ = k
      · simp only [List.cons_append]
        simp only [Row.get, hk, if_true] at h ⊢
        exact h
      · simp only [List.cons_append]
        simp only [Row.get, hk, if_false] at h ⊢
        exact ih h

theorem get_setKey_self (r : Row) (k v : String) :
    Row.get (setKey r k v) k = some v := by
  induction r with
  | nil => simp [setKey, Row.get]
  | cons p t ih =>
      obtain ⟨k₀, v₀⟩ := p
      by_cases hk : k₀ = k
      · simp [setKey, hk, Row.get]
      · simp [setKey, hk, Row.get, ih]

theorem get_setKey_ne (r : Row) (k v key : String) (h : key ≠ k) :
    Row.get (setKey r k v) key = Row.get r key := by
  have hk' : ¬ (k = key) := fun he => h he.symm
  induction r with
  | nil => simp [setKey, Row.get, hk']
  | cons p t ih =>
      obtain ⟨k₀, v₀⟩ := p
      by_cases hk : k₀ = k
      · subst hk
        simp [setKey, Row.get, hk']
      · by_cases hke : k₀ = key
        · simp [setKey, hk, Row.get, hke, h]
        · simp [setKey, hk, Row.get, hke, ih]

theorem setKey_of_not_mem (r : Row) (k v : String)
    (h : k ∉ r.map Prod.fst) :
    setKey r k v = r ++ [(k, v)] := by
  induction r with
  | nil => rfl
  | cons p t ih =>
      obtain ⟨k₀, v₀⟩ := p
      simp only [List.map_cons, List.mem_cons, not_or] at h
      have hne : ¬ (k₀ = k) := fun he => h.1 he.symm
      simp [setKey, hne, ih h.2]

theorem setKey_map_fst_of_mem (r : Row) (k v : String)
    (h : k ∈ r.map Prod.fst) :
    (setKey r k v).map Prod.fst = r.map Prod.fst := by
  induction r with
  | nil => simp at h
  | cons p t ih =>
      obtain ⟨k₀, v₀⟩ := p
      by_cases hk : k₀ = k
      · simp [setKey, hk]
      · simp only [List.map_cons, List.mem_cons] at h
        have hmem : k ∈ t.map Prod.fst := by
          rcases h with h | h
          · exact absurd h.symm hk
          · exact h
        simp [setKey, hk, ih hmem]

theorem restrictKeys_append (r₁ r₂ : Row) (ks : List String) :
    restrictKeys (r₁ ++ r₂) ks = restrictKeys r₁ ks ++ restrictKeys r₂ ks := by
  induction r₁ with
  | nil => rfl
  | cons p t ih =>
      by_cases hp : p.1 ∈ ks
      · simp [restrictKeys, hp, ih]
      · simp [restrictKeys, hp, ih]

theorem restrictKeys_self (r : Row) (ks : List String)
    (h : ∀ p ∈ r, p.1 ∈ ks) :
    restrictKeys r ks = r := by
  induction r with
  | nil => rfl
  | cons p t ih =>
      have hp : p.1 ∈ ks := h p (List.mem_cons_self p t)
      have ht : ∀ q ∈ t, q.1 ∈ ks := fun q hq => h q (List.mem_cons_of_mem p hq)
      simp [restrictKeys, hp, ih ht]

theorem restrictKeys_not_mem (p : String × String) (ks : List String)
    (h : p.1 ∉ ks) :
    restrictKeys [p] ks = [] := by
  simp [restrictKeys, h]

theorem keys_map_getD (r : Row) (h : (r.map Prod.fst).Nodup) :
    (r.map Prod.fst).map (fun k => (Row.get r k).getD "") = r.map Prod.snd := by
  induction r with
  | nil => rfl
  | cons p t ih =>
      obtain ⟨k₀, v₀⟩ := p
      simp only [List.map_cons, List.nodup_cons] at h
      have hcongr : ∀ k ∈ t.map Prod.fst,
          (Row.get ((k₀, v₀) :: t) k).getD "" = (Row.get t k).getD "" := by
        intro k hk
        have hne : ¬ (k₀ = k) := fun he => h.1 (he ▸ hk)
        simp [Row.get, hne]
      have hhead : (Row.get ((k₀, v₀) :: t) k₀).getD "" = v₀ := by
        simp [Row.get]
      simp only [List.map_cons, hhead, List.map_congr_left hcongr, ih h.2]

theorem zip_self_map {α β : Type} (l : List α) (g : α → β) :
    l.zip (l.map g) = l.map fun a => (a, g a) := by
  induction l with
  | nil => rfl
  | cons a t ih => simp [ih]

/-! ### Lemmas about the four checks -/

theorem foldl_missing (row : Row) (fields : List String) (acc : List String) :
    fields.foldl
      (fun issues field =>
        if fieldVal row field = "" then issues ++ ["Missing " ++ field]
        else issues) acc =
    acc ++ (fields.filter fun f => decide (fieldVal row f = "")).map
      (fun f => "Missing " ++ f) := by
  induction fields generalizing acc with
  | nil => simp
  | cons f t ih =>
      by_cases hf : fieldVal row f = ""
      · simp [hf, ih]
      · simp [hf, ih]

theorem check_required_fields_eq (row : Row) :
    check_required_fields row = missingIssues row := by
  unfold check_required_fields missingIssues
  rw [foldl_missing]
  simp

theorem check_required_fields_congr (r₁ r₂ : Row)
    (h : ∀ f ∈ REQUIRED_FIELDS, fieldVal r₁ f = fieldVal r₂ f) :
    check_required_fields r₁ = check_required_fields r₂ := by
  rw [check_required_fields_eq, check_required_fields_eq]
  unfold missingIssues
  have : (REQUIRED_FIELDS.filter fun f => decide (fieldVal r₁ f = "")) =
      REQUIRED_FIELDS.filter fun f => decide (fieldVal r₂ f = "") := by
    apply List.filter_congr
    intro f hf
    rw [h f hf]
  rw [this]

theorem check_date_congr (r₁ r₂ : Row)
    (h : fieldVal r₁ "date" = fieldVal r₂ "date") :
    check_date r₁ = check_date r₂ := by
  unfold check_date
  rw [h]

theorem check_license_congr (r₁ r₂ : Row)
    (h : fieldVal r₁ "license" = fieldVal r₂ "license") :
    check_license r₁ = check_license r₂ := by
  unfold check_license
  rw [h]

theorem check_filename_congr (r₁ r₂ : Row)
    (h : fieldVal r₁ "filename" = fieldVal r₂ "filename") :
    check_filename r₁ = check_filename r₂ := by
  unfold check_filename
  rw [h]

theorem validate_row_congr (r₁ r₂ : Row)
    (h : ∀ f ∈ REQUIRED_FIELDS, fieldVal r₁ f = fieldVal r₂ f) :
    validate_row r₁ = validate_row r₂ := by
  unfold validate_row
  rw [check_required_fields_congr r₁ r₂ h,
    check_date_congr r₁ r₂ (h "date" (by decide)),
    check_license_congr r₁ r₂ (h "license" (by decide)),
    check_filename_congr r₁ r₂ (h "filename" (by decide))]

theorem fieldVal_none (row : Row) (f : String) (habs : Row.get row f = none) :
    fieldVal row f = "" := by
  unfold fieldVal
  rw [habs]
  rfl

theorem fieldVal_append_blank (row : Row) (f g : String)
    (habs : Row.get row f = none) :
    fieldVal (row ++ [(f, "")]) g = fieldVal row g := by
  by_cases hg : g = f
  · subst hg
    unfold fieldVal
    rw [habs, get_append_of_none row _ _ habs]
    simp [Row.get]
  · unfold fieldVal
    have hfg : ¬ (f = g) := fun he => hg he.symm
    cases hv : Row.get row g with
    | none =>
        rw [get_append_of_none row _ _ hv]
        simp [Row.get, hfg]
    | some v => rw [get_append_of_some row _ _ _ hv]

/-! ### Lemmas about the report writer -/

theorem write_report_cons (r₀ : Row) (rest : List Row)
    (all_issues : List (List String)) :
    write_report (r₀ :: rest) all_issues =
      some (r₀.map Prod.fst ++ ["issues"],
        ((r₀ :: rest).zip all_issues).map fun ri =>
          (r₀.map Prod.fst ++ ["issues"]).map fun fn =>
            (Row.get (setKey ri.1 "issues" (joinIssues ri.2)) fn).getD "") :=
  rfl

theorem out_row_eq (r : Row) (hdr : List String) (j : String)
    (hk : r.map Prod.fst = hdr) (hnd : hdr.Nodup) (hni : "issues" ∉ hdr) :
    (hdr ++ ["issues"]).map
        (fun fn => (Row.get (setKey r "issues" j) fn).getD "") =
      r.map Prod.snd ++ [j] := by
  have hset : setKey r "issues" j = r ++ [("issues", j)] :=
    setKey_of_not_mem r _ j (by rw [hk]; exact hni)
  have hnone : Row.get r "issues" = none :=
    (get_eq_none_iff r _).mpr (by rw [hk]; exact hni)
  rw [hset, List.map_append]
  have h1 : ∀ fn ∈ hdr,
      (Row.get (r ++ [("issues", j)]) fn).getD "" = (Row.get r fn).getD "" := by
    intro fn hfn
    obtain ⟨v, hv⟩ := get_some_of_mem r fn (by rw [hk]; exact hfn)
    rw [get_append_of_some r _ fn v hv, hv]
  rw [List.map_congr_left h1]
  have h2 : hdr.map (fun fn => (Row.get r fn).getD "") = r.map Prod.snd := by
    rw [← hk]
    exact keys_map_getD r (by rw [hk]; exact hnd)
  rw [h2]
  have h3 : Row.get (r ++ [("issues", j)]) "issues" = some j := by
    rw [get_append_of_none r _ _ hnone]
    simp [Row.get]
  simp [h3]

theorem restrictKeys_setKey (row : Row) (j : String) :
    restrictKeys (setKey row "issues" j) (row.map Prod.fst) =
      if "issues" ∈ row.map Prod.fst then setKey row "issues" j else row := by
  by_cases h : "issues" ∈ row.map Prod.fst
  · rw [if_pos h]
    apply restrictKeys_self
    intro p hp
    have hm : p.1 ∈ (setKey row "issues" j).map Prod.fst :=
      List.mem_map_of_mem Prod.fst hp
    rwa [setKey_map_fst_of_mem row _ j h] at hm
  · rw [if_neg h, setKey_of_not_mem row _ j h, restrictKeys_append]
    rw [restrictKeys_self row _ (fun p hp => List.mem_map_of_mem Prod.fst hp),
      restrictKeys_not_mem _ _ h]
    simp

/-! ### The claims -/

/-- C4: the required-fields check emits exactly one `Missing <field>` issue
for each field of the fixed list whose trimmed value is empty, in list
order and nothing else; a row missing exactly `title` and `creator` yields
the joined issues string `Missing title; Missing creator`. -/
theorem C4_required_fields :
    (∀ row : Row, check_required_fields row = missingIssues row) ∧
    joinIssues (check_required_fields
      [("filename", "a.b"), ("title", " "), ("creator", ""),
       ("date", "2023-01-01"), ("license", "MIT"), ("format", "tif")]) =
      "Missing title; Missing creator" :=
  ⟨check_required_fields_eq, by decide⟩

/-- C5: for a non-blank trimmed license value the license check returns no
issue exactly when the value is (by case-sensitive exact comparison) one of
`CC0-1.0`, `CC-BY-4.0`, `MIT`, `GPL-3.0`, and otherwise returns exactly the
single issue `License not allowed: <value>`; a blank license yields no
issue; `Apache-2.0` yields `License not allowed: Apache-2.0`. -/
theorem C5_license_check :
    (∀ r : Row,
      (fieldVal r "license" = "" → check_license r = []) ∧
      (fieldVal r "license" ≠ "" →
        ((fieldVal r "license" = "CC0-1.0" ∨ fieldVal r "license" = "CC-BY-4.0" ∨
          fieldVal r "license" = "MIT" ∨ fieldVal r "license" = "GPL-3.0") →
          check_license r = []) ∧
        (¬ (fieldVal r "license" = "CC0-1.0" ∨ fieldVal r "license" = "CC-BY-4.0" ∨
            fieldVal r "license" = "MIT" ∨ fieldVal r "license" = "GPL-3.0") →
          check_license r = ["License not allowed: " ++ fieldVal r "license"]))) ∧
    check_license [("license", "Apache-2.0")] =
      ["License not allowed: Apache-2.0"] := by
  constructor
  · intro r
    refine ⟨fun h => by simp [check_license, h], fun hne => ⟨?_, ?_⟩⟩
    · intro hmem
      have hm : fieldVal r "license" ∈ ALLOWED_LICENSES := by
        simpa [ALLOWED_LICENSES] using hmem
      simp [check_license, hne, hm]
    · intro hnmem
      have hm : fieldVal r "license" ∉ ALLOWED_LICENSES := by
        simpa [ALLOWED_LICENSES] using hnmem
      simp [check_license, hne, hm]
  · decide

/-- C5 witness: the general statement applied to a concrete row with an
allow-listed license. -/
theorem C5_license_check_witness :
    check_license [("license", "MIT")] = [] :=
  ((C5_license_check.1 [("license", "MIT")]).2 (by decide)).1
    (Or.inr (Or.inr (Or.inl (by decide))))

/-- C3: for a non-blank trimmed filename, no dot yields exactly the
no-extension issue; with a dot but fewer than 4 underscore segments in the
name part (before the last dot) exactly the structure issue; otherwise the
check emits `Filename date must be YYYYMMDD` when the first segment is not
exactly 8 digits and, independently, `Filename version must look like v01`
when the last segment is not `v` followed by one or more digits, so both
can appear together; a blank filename yields no issue. -/
theorem C3_filename_check :
    ∀ r : Row,
      (fieldVal r "filename" = "" → check_filename r = []) ∧
      (fieldVal r "filename" ≠ "" → '.' ∉ (fieldVal r "filename").data →
        check_filename r = ["Filename has no file extension"]) ∧
      (fieldVal r "filename" ≠ "" → '.' ∈ (fieldVal r "filename").data →
        (fnParts (fieldVal r "filename").data).length < 4 →
        check_filename r = ["Filename does not follow expected structure"]) ∧
      (fieldVal r "filename" ≠ "" → '.' ∈ (fieldVal r "filename").data →
        4 ≤ (fnParts (fieldVal r "filename").data).length →
        check_filename r =
          (if ¬ (((fnParts (fieldVal r "filename").data).headD []).length = 8 ∧
                 isdigitPy ((fnParts (fieldVal r "filename").data).headD []) = true)
           then ["Filename date must be YYYYMMDD"] else []) ++
          (if ¬ (versionOk ((fnParts (fieldVal r "filename").data).getLastD []) = true)
           then ["Filename version must look like v01"] else [])) := by
  intro r
  refine ⟨fun h => by simp [check_filename, h], ?_, ?_, ?_⟩
  · intro hne hdot
    simp [check_filename, hne, hdot]
  · intro hne hdot hlt
    simp [check_filename, hne, hdot, hlt]
  · intro hne hdot hge
    have hnlt : ¬ (fnParts (fieldVal r "filename").data).length < 4 :=
      Nat.not_lt.mpr hge
    simp only [check_filename, if_neg hne, if_neg (not_not_intro hdot),
      if_neg hnlt]
    congr 1
    · generalize (fnParts (fieldVal r "filename").data).headD [] = dp
      by_cases hL : dp.length = 8
      · by_cases hD : isdigitPy dp = true
        · have hc₁ : ¬ (¬ dp.length = 8 ∨ isdigitPy dp = false) := by
            rintro (h | h)
            · exact h hL
            · rw [hD] at h
              exact Bool.noConfusion h
          rw [if_neg hc₁, if_neg (not_not_intro ⟨hL, hD⟩)]
        · have hD' : isdigitPy dp = false := by
            cases hb : isdigitPy dp
            · rfl
            · exact absurd hb hD
          rw [if_pos (Or.inr hD'), if_pos (fun hc => hD hc.2)]
      · rw [if_pos (Or.inl hL), if_pos (fun hc => hL hc.1)]
    · generalize (fnParts (fieldVal r "filename").data).getLastD [] = vp
      by_cases hV : versionOk vp = true
      · have hc₁ : ¬ (versionOk vp = false) := by
          rw [hV]
          exact fun h => Bool.noConfusion h
        rw [if_neg hc₁, if_neg (not_not_intro hV)]
      · have hV' : versionOk vp = false := by
          cases hb : versionOk vp
          · rfl
          · exact absurd hb hV
        rw [if_pos hV', if_pos hV]

/-- C3 witness: the general statement applied to a concrete filename on
which both independent content issues fire together. -/
theorem C3_filename_check_witness :
    check_filename [("filename", "2023x101_proj_desc_vv.tif")] =
      ["Filename date must be YYYYMMDD", "Filename version must look like v01"] :=
  ((C3_filename_check [("filename", "2023x101_proj_desc_vv.tif")]).2.2.2
    (by decide) (by decide) (by decide)).trans (by decide)

/-- C7: with zero input rows the report writer fails before producing any
output (the header cannot be derived from an empty row list), and it fails
only then. -/
theorem C7_empty_table :
    (∀ (rows : List Row) (all_issues : List (List String)),
      write_report rows all_issues = none ↔ rows = []) ∧
    report ([] : List Row) = none := by
  constructor
  · intro rows all_issues
    cases rows with
    | nil => simp [write_report]
    | cons r t => simp [write_report]
  · rfl

/-- C7 witness: the equivalence applied to the empty table. -/
theorem C7_empty_table_witness :
    write_report ([] : List Row) ([] : List (List String)) = none :=
  (C7_empty_table.1 [] []).mpr rfl

/-- C2 counterexample: the claim requires that the date check accepts only
the exact zero-padded `YYYY-MM-DD` format, but on the row with
`date = "2023-1-5"` (non-blank, not zero-padded) the check returns no
issue: CPython's `strptime` month and day patterns also accept single
digits. -/
theorem C2_date_check_cex :
    fieldVal [("date", "2023-1-5")] "date" ≠ "" ∧
    check_date [("date", "2023-1-5")] = [] ∧
    ¬ isZeroPaddedCalendarDate "2023-1-5" := by
  refine ⟨by decide, by decide, ?_⟩
  rintro ⟨y, m, d, hs, hy, hm, hd, -⟩
  have hlen := congrArg List.length hs
  have h8 : ("2023-1-5".data).length = 8 := by decide
  rw [h8] at hlen
  simp [List.length_append] at hlen
  omega

/-- C2 (amended): for a row with a non-blank trimmed `date` value the date
check returns no issue exactly when the value is a dash-separated
year-month-day calendar date whose year is exactly four digits and whose
month and day are one or two digits each (zero-padding optional), and
otherwise returns exactly the single issue
`Invalid date format (expected YYYY-MM-DD)`; a blank date yields no issue;
`2023-13-40` yields that issue and `2023-01-15` yields none. -/
theorem C2_date_check :
    (∀ r : Row,
      (fieldVal r "date" = "" → check_date r = []) ∧
      (fieldVal r "date" ≠ "" →
        (dateAcceptedSpec (fieldVal r "date") → check_date r = []) ∧
        (¬ dateAcceptedSpec (fieldVal r "date") →
          check_date r = ["Invalid date format (expected YYYY-MM-DD)"]))) ∧
    check_date [("date", "2023-13-40")] =
      ["Invalid date format (expected YYYY-MM-DD)"] ∧
    check_date [("date", "2023-01-15")] = [] := by
  refine ⟨?_, by decide, by decide⟩
  intro r
  refine ⟨fun h => by simp [check_date, h], fun hne => ⟨?_, ?_⟩⟩
  · intro hacc
    have hb : strptimeYmd (fieldVal r "date") = true :=
      (strptimeYmd_iff (fieldVal r "date")).mpr hacc
    simp [check_date, hne, hb]
  · intro hnacc
    have hb : strptimeYmd (fieldVal r "date") = false := by
      cases hv : strptimeYmd (fieldVal r "date")
      · rfl
      · exact absurd ((strptimeYmd_iff (fieldVal r "date")).mp hv) hnacc
    simp [check_date, hne, hb]

/-- C2 witness: the amended statement applied to a concrete row with an
unpadded but valid date. -/
theorem C2_date_check_witness :
    check_date [("date", "2023-1-7")] = [] :=
  ((C2_date_check.1 [("date", "2023-1-7")]).2 (by decide)).1
    ⟨['2', '0', '2', '3'], ['1'], ['7'], by decide⟩

/-- C6: a row whose six required fields are all non-blank, whose date is a
valid (amended-format) calendar date, whose license is allow-listed and
whose filename conforms to the naming convention collects no issue from
any of the four checks, so its `issues` column is the empty string. -/
theorem C6_clean_row (row : Row)
    (hreq : ∀ f ∈ REQUIRED_FIELDS, fieldVal row f ≠ "")
    (hdate : dateAcceptedSpec (fieldVal row "date"))
    (hlic : fieldVal row "license" ∈ ALLOWED_LICENSES)
    (hfn : filenameConformant (fieldVal row "filename") = true) :
    validate_row row = [] ∧ joinIssues (validate_row row) = "" := by
  have h1 : check_required_fields row = [] := by
    rw [check_required_fields_eq]
    unfold missingIssues
    have hfil : (REQUIRED_FIELDS.filter fun f => decide (fieldVal row f = "")) = [] := by
      rw [List.filter_eq_nil_iff]
      intro f hf
      simp [hreq f hf]
    rw [hfil]
    rfl
  have h2 : check_date row = [] := by
    have hb : strptimeYmd (fieldVal row "date") = true :=
      (strptimeYmd_iff (fieldVal row "date")).mpr hdate
    simp [check_date, hb]
  have h3 : check_license row = [] := by
    simp [check_license, hlic]
  have h4 : check_filename row = [] := by
    have hfn' := hfn
    simp only [filenameConformant, Bool.and_eq_true, decide_eq_true_eq,
      beq_iff_eq] at hfn'
    obtain ⟨⟨⟨⟨hdot, hlen4⟩, hlen8⟩, hdig⟩, hver⟩ := hfn'
    have hnb : fieldVal row "filename" ≠ "" := hreq "filename" (by decide)
    have hnlt : ¬ (fnParts (fieldVal row "filename").data).length < 4 :=
      Nat.not_lt.mpr hlen4
    rw [List.headD_eq_head?_getD] at hlen8 hdig
    rw [List.getLastD_eq_getLast?] at hver
    simp [check_filename, hnb, hdot, hnlt, hlen8, hdig, hver]
  have hall : validate_row row = [] := by
    simp [validate_row, h1, h2, h3, h4]
  exact ⟨hall, by rw [hall]; rfl⟩

/-- C6 witness: the statement applied to a concrete fully conformant row. -/
theorem C6_clean_row_witness :
    validate_row
      [("filename", "20230101_proj_desc_v1.tif"), ("title", "T"),
       ("creator", "C"), ("date", "2023-01-15"), ("license", "MIT"),
       ("format", "image/tiff")] = [] ∧
    joinIssues (validate_row
      [("filename", "20230101_proj_desc_v1.tif"), ("title", "T"),
       ("creator", "C"), ("date", "2023-01-15"), ("license", "MIT"),
       ("format", "image/tiff")]) = "" :=
  C6_clean_row _ (by decide)
    ⟨['2', '0', '2', '3'], ['0', '1'], ['1', '5'], by decide⟩
    (by decide) (by decide)

/-- C8: validation is idempotent through the report: running the four
checks on the report's row (the row `dict` with the computed `issues`
entry) restricted to the original input columns yields exactly the issues
of the input row. -/
theorem C8_idempotent (row : Row) :
    validate_row
      (restrictKeys (setKey row "issues" (joinIssues (validate_row row)))
        (row.map Prod.fst)) = validate_row row := by
  rw [restrictKeys_setKey]
  by_cases h : "issues" ∈ row.map Prod.fst
  · rw [if_pos h]
    apply validate_row_congr
    intro f hf
    have hni : ∀ g ∈ REQUIRED_FIELDS, g ≠ "issues" := by decide
    unfold fieldVal
    rw [get_setKey_ne row "issues" _ f (hni f hf)]
  · rw [if_neg h]

/-- C9: each check treats a row without a consulted column key exactly
like a row carrying that column as the empty string (no check can fail on
an absent key): appending an explicit empty binding for the absent key
changes no check's output, the required-fields check reports the field as
missing, and the date, license, and filename checks skip it. -/
theorem C9_absent_columns (row : Row) (f : String)
    (habs : Row.get row f = none) :
    (check_required_fields (row ++ [(f, "")]) = check_required_fields row ∧
     check_date (row ++ [(f, "")]) = check_date row ∧
     check_license (row ++ [(f, "")]) = check_license row ∧
     check_filename (row ++ [(f, "")]) = check_filename row) ∧
    (f ∈ REQUIRED_FIELDS → "Missing " ++ f ∈ check_required_fields row) ∧
    (f = "date" → check_date row = []) ∧
    (f = "license" → check_license row = []) ∧
    (f = "filename" → check_filename row = []) := by
  have hagree : ∀ g ∈ REQUIRED_FIELDS,
      fieldVal (row ++ [(f, "")]) g = fieldVal row g :=
    fun g _ => fieldVal_append_blank row f g habs
  refine ⟨⟨check_required_fields_congr _ _ hagree,
    check_date_congr _ _ (hagree "date" (by decide)),
    check_license_congr _ _ (hagree "license" (by decide)),
    check_filename_congr _ _ (hagree "filename" (by decide))⟩,
    ?_, ?_, ?_, ?_⟩
  · intro hf
    rw [check_required_fields_eq]
    unfold missingIssues
    apply List.mem_map_of_mem
    rw [List.mem_filter]
    exact ⟨hf, by simp [fieldVal_none row f habs]⟩
  · intro hf
    subst hf
    simp [check_date, fieldVal_none row _ habs]
  · intro hf
    subst hf
    simp [check_license, fieldVal_none row _ habs]
  · intro hf
    subst hf
    simp [check_filename, fieldVal_none row _ habs]

/-- C9 witness: the statement applied to a concrete row lacking the `date`
column. -/
theorem C9_absent_columns_witness :
    (check_required_fields ([("title", "t")] ++ [("date", "")]) =
        check_required_fields [("title", "t")] ∧
     check_date ([("title", "t")] ++ [("date", "")]) =
        check_date [("title", "t")] ∧
     check_license ([("title", "t")] ++ [("date", "")]) =
        check_license [("title", "t")] ∧
     check_filename ([("title", "t")] ++ [("date", "")]) =
        check_filename [("title", "t")]) ∧
    ("date" ∈ REQUIRED_FIELDS →
      "Missing " ++ "date" ∈ check_required_fields [("title", "t")]) ∧
    ("date" = "date" → check_date [("title", "t")] = []) ∧
    ("date" = "license" → check_license [("title", "t")] = []) ∧
    ("date" = "filename" → check_filename [("title", "t")] = []) :=
  C9_absent_columns [("title", "t")] "date" (by decide)

/-- C10: when an input row already has an `issues` column, the report
overwrites it: the output header repeats `issues` (once more than the
input columns do), and every `issues` position of the output row carries
the computed issue string instead of the stored one, while the other
columns keep their input values. -/
theorem C10_issues_overwritten (row : Row) (rest : List Row) (v : String)
    (hv : Row.get row "issues" = some v) :
    reportHeader (row :: rest) = row.map Prod.fst ++ ["issues"] ∧
    (reportHeader (row :: rest)).count "issues" =
      (row.map Prod.fst).count "issues" + 1 ∧
    2 ≤ (reportHeader (row :: rest)).count "issues" ∧
    (reportRows (row :: rest)).headD [] =
      (row.map Prod.fst ++ ["issues"]).map
        (fun fn => if fn = "issues" then joinIssues (validate_row row)
                   else (Row.get row fn).getD "") := by
  have hmem : "issues" ∈ row.map Prod.fst := by
    by_contra hni
    rw [(get_eq_none_iff row "issues").mpr hni] at hv
    exact Option.noConfusion hv
  have hrep : report (row :: rest) = some (row.map Prod.fst ++ ["issues"],
      ((row :: rest).zip ((row :: rest).map validate_row)).map fun ri =>
        (row.map Prod.fst ++ ["issues"]).map fun fn =>
          (Row.get (setKey ri.1 "issues" (joinIssues ri.2)) fn).getD "") :=
    write_report_cons row rest _
  have hH : reportHeader (row :: rest) = row.map Prod.fst ++ ["issues"] := by
    unfold reportHeader
    rw [hrep]
    rfl
  have hcount : (reportHeader (row :: rest)).count "issues" =
      (row.map Prod.fst).count "issues" + 1 := by
    rw [hH, List.count_append]
    simp
  refine ⟨hH, hcount, ?_, ?_⟩
  · have h1 : 0 < (row.map Prod.fst).count "issues" :=
      List.count_pos_iff.mpr hmem
    omega
  · unfold reportRows
    rw [hrep]
    simp only [Option.map_some', Option.getD_some, List.map_cons,
      List.zip_cons_cons, List.headD_cons]
    apply List.map_congr_left
    intro fn _
    by_cases hfn : fn = "issues"
    · subst hfn
      simp [get_setKey_self]
    · rw [get_setKey_ne row _ _ fn hfn, if_neg hfn]

/-- C10 witness: the statement applied to a concrete row that already has
an `issues` column. -/
theorem C10_issues_overwritten_witness :
    reportHeader [[("issues", "old"), ("creator", "c")]] =
      [("issues", "old"), ("creator", "c")].map Prod.fst ++ ["issues"] ∧
    (reportHeader [[("issues", "old"), ("creator", "c")]]).count "issues" =
      ([("issues", "old"), ("creator", "c")].map Prod.fst).count "issues" + 1 ∧
    2 ≤ (reportHeader [[("issues", "old"), ("creator", "c")]]).count "issues" ∧
    (reportRows [[("issues", "old"), ("creator", "c")]]).headD [] =
      ([("issues", "old"), ("creator", "c")].map Prod.fst ++ ["issues"]).map
        (fun fn => if fn = "issues"
                   then joinIssues (validate_row [("issues", "old"), ("creator", "c")])
                   else (Row.get [("issues", "old"), ("creator", "c")] fn).getD "") :=
  C10_issues_overwritten [("issues", "old"), ("creator", "c")] [] "old" (by decide)

/-- C1 counterexample: on an input table whose rows already carry an
`issues` column the claimed unconditional round-trip fails: the stored
value `old` appears nowhere in the output row, its position having been
overwritten with the computed issue string. -/
theorem C1_report_cex :
    reportHeader [[("issues", "old"), ("title", "t")]] =
      ["issues", "title", "issues"] ∧
    (reportRows [[("issues", "old"), ("title", "t")]]).headD [] =
      ["Missing filename; Missing creator; Missing date; Missing license; Missing format",
       "t",
       "Missing filename; Missing creator; Missing date; Missing license; Missing format"] ∧
    "old" ∉ (reportRows [[("issues", "old"), ("title", "t")]]).headD [] :=
  ⟨by decide, by decide, by decide⟩

/-- C1 (amended): for every non-empty input table none of whose columns is
named `issues` (rows share the header's distinct column names, as
`csv.DictReader` guarantees), the report has exactly one output row per
input row in input order, each output row being the input row's values
unchanged plus one appended `issues` column holding the row's issues from
the four checks — concatenated in the order required-fields, date,
license, filename — joined by `"; "` (empty when there are none). -/
theorem C1_report_roundtrip (rows : List Row) (hdr : List String)
    (hne : rows ≠ [])
    (hkeys : ∀ r ∈ rows, r.map Prod.fst = hdr)
    (hnd : hdr.Nodup) (hni : "issues" ∉ hdr) :
    report rows = some (hdr ++ ["issues"],
      rows.map fun r => r.map Prod.snd ++ [joinIssues (validate_row r)]) := by
  obtain ⟨r₀, rest, rfl⟩ : ∃ r₀ rest, rows = r₀ :: rest := by
    cases rows with
    | nil => exact absurd rfl hne
    | cons a b => exact ⟨a, b, rfl⟩
  have hk₀ : r₀.map Prod.fst = hdr := hkeys r₀ (List.mem_cons_self _ _)
  unfold report
  rw [write_report_cons, zip_self_map, List.map_map, hk₀]
  refine congrArg some ?_
  refine congrArg (Prod.mk (hdr ++ ["issues"])) ?_
  apply List.map_congr_left
  intro r hr
  exact out_row_eq r hdr (joinIssues (validate_row r)) (hkeys r hr) hnd hni

/-- C1 witness: the amended statement applied to a concrete two-row
table. -/
theorem C1_report_roundtrip_witness :
    report
      [[("filename", "20230101_a_b_v1.tif"), ("title", "T1"), ("creator", "C"),
        ("date", "2023-01-15"), ("license", "MIT"), ("format", "tif")],
       [("filename", ""), ("title", ""), ("creator", "X"),
        ("date", "2023-13-40"), ("license", "Foo"), ("format", "tif")]] =
      some (["filename", "title", "creator", "date", "license", "format"] ++
              ["issues"],
        [[("filename", "20230101_a_b_v1.tif"), ("title", "T1"), ("creator", "C"),
          ("date", "2023-01-15"), ("license", "MIT"), ("format", "tif")],
         [("filename", ""), ("title", ""), ("creator", "X"),
          ("date", "2023-13-40"), ("license", "Foo"), ("format", "tif")]].map
          fun r => r.map Prod.snd ++ [joinIssues (validate_row r)]) :=
  C1_report_roundtrip _
    ["filename", "title", "creator", "date", "license", "format"]
    (by decide) (by decide) (by decide) (by decide)

end Checker

